import Mathlib

/-!
Shallow embedding of the Kaggle-chatbot streaming relay and dispatch queue
(`src/app/api/chat/route.ts` and `src/app/page.tsx`), together with proofs
about the claims of the specification.

Strings manipulated character-by-character (the SSE line decoder) are
modelled as `List Char`; transcript contents are `String`.
-/

namespace KaggleChat

/-! ### JS string primitives -/

/-- The whitespace characters removed by JS `String.prototype.trim`
(ASCII subset; exotic Unicode space characters are not modelled). -/
def wsChar (c : Char) : Bool :=
  c = ' ' || c = '\t' || c = '\n' || c = '\r' || c = '\x0b' || c = '\x0c'

/-- JS `s.trim()` on a character list. -/
def jsTrim (l : List Char) : List Char :=
  ((l.dropWhile wsChar).reverse.dropWhile wsChar).reverse

/-- JS `s.trim()` on a `String`. -/
def jsTrimStr (s : String) : String :=
  String.mk (jsTrim s.data)

/-- JS `hay.includes(needle)` (substring containment). -/
def containsSub (needle : List Char) : List Char → Bool
  | [] => needle.isEmpty
  | c :: cs => needle.isPrefixOf (c :: cs) || containsSub needle cs

/-- JS `hay.includes(needle)` on `String`s. -/
def containsStr (needle hay : String) : Bool :=
  containsSub needle.data hay.data

/-! ### A model of `JSON.parse`

The relay parses each SSE `data:` payload with `JSON.parse` and skips the
line when parsing throws.  We model the JSON grammar (null, booleans,
numbers kept as their lexeme, strings with the standard escapes, arrays,
objects); fuel bounds the recursion depth. -/

inductive Json where
  | jnull
  | jbool (b : Bool)
  | jnum (lexeme : List Char)
  | jstr (s : List Char)
  | jarr (elems : List Json)
  | jobj (fields : List (List Char × Json))

/-- JSON insignificant whitespace. -/
def jsonWs (c : Char) : Bool :=
  c = ' ' || c = '\t' || c = '\n' || c = '\r'

def skipJWs (l : List Char) : List Char := l.dropWhile jsonWs

def hexVal (c : Char) : Option Nat :=
  if '0' ≤ c ∧ c ≤ '9' then some (c.toNat - '0'.toNat)
  else if 'a' ≤ c ∧ c ≤ 'f' then some (c.toNat - 'a'.toNat + 10)
  else if 'A' ≤ c ∧ c ≤ 'F' then some (c.toNat - 'A'.toNat + 10)
  else none

/-- Body of a JSON string literal (after the opening quote), with the
standard escape sequences.  Returns the decoded characters and the rest of
the input after the closing quote. -/
def parseStrAux : List Char → Option (List Char × List Char)
  | [] => none
  | '"' :: rest => some ([], rest)
  | '\\' :: e :: rest =>
    match e with
    | '"' => (parseStrAux rest).map (fun p => ('"' :: p.1, p.2))
    | '\\' => (parseStrAux rest).map (fun p => ('\\' :: p.1, p.2))
    | '/' => (parseStrAux rest).map (fun p => ('/' :: p.1, p.2))
    | 'b' => (parseStrAux rest).map (fun p => ('\x08' :: p.1, p.2))
    | 'f' => (parseStrAux rest).map (fun p => ('\x0c' :: p.1, p.2))
    | 'n' => (parseStrAux rest).map (fun p => ('\n' :: p.1, p.2))
    | 'r' => (parseStrAux rest).map (fun p => ('\r' :: p.1, p.2))
    | 't' => (parseStrAux rest).map (fun p => ('\t' :: p.1, p.2))
    | 'u' =>
      match rest with
      | h1 :: h2 :: h3 :: h4 :: rest4 =>
        match hexVal h1, hexVal h2, hexVal h3, hexVal h4 with
        | some a, some b, some c, some d =>
          (parseStrAux rest4).map
            (fun p => (Char.ofNat (a * 4096 + b * 256 + c * 16 + d) :: p.1, p.2))
        | _, _, _, _ => none
      | _ => none
    | _ => none
  | c :: rest => (parseStrAux rest).map (fun p => (c :: p.1, p.2))

def isDigit (c : Char) : Bool := '0' ≤ c && c ≤ '9'

/-- An exponent suffix (`e`/`E`, optional sign, digits); a malformed
exponent is left in the remaining input, where the enclosing grammar
rejects it at the next delimiter. -/
def parseExp (l : List Char) : List Char × List Char :=
  match l with
  | 'e' :: '+' :: r =>
    let ds := r.takeWhile isDigit
    if ds = [] then ([], l) else ('e' :: '+' :: ds, r.dropWhile isDigit)
  | 'e' :: '-' :: r =>
    let ds := r.takeWhile isDigit
    if ds = [] then ([], l) else ('e' :: '-' :: ds, r.dropWhile isDigit)
  | 'e' :: r =>
    let ds := r.takeWhile isDigit
    if ds = [] then ([], l) else ('e' :: ds, r.dropWhile isDigit)
  | 'E' :: '+' :: r =>
    let ds := r.takeWhile isDigit
    if ds = [] then ([], l) else ('E' :: '+' :: ds, r.dropWhile isDigit)
  | 'E' :: '-' :: r =>
    let ds := r.takeWhile isDigit
    if ds = [] then ([], l) else ('E' :: '-' :: ds, r.dropWhile isDigit)
  | 'E' :: r =>
    let ds := r.takeWhile isDigit
    if ds = [] then ([], l) else ('E' :: ds, r.dropWhile isDigit)
  | _ => ([], l)

/-- A JSON number lexeme: optional minus, digits, optional fraction,
optional exponent.  Returns the lexeme and the remaining input. -/
def parseNumber (l : List Char) : Option (List Char × List Char) :=
  let (sign, l1) :=
    match l with
    | '-' :: r => (['-'], r)
    | _ => (([] : List Char), l)
  let intPart := l1.takeWhile isDigit
  let r1 := l1.dropWhile isDigit
  if intPart = [] then none
  else
    match r1 with
    | '.' :: r =>
      let ds := r.takeWhile isDigit
      if ds = [] then none
      else
        let (e, r3) := parseExp (r.dropWhile isDigit)
        some (sign ++ intPart ++ '.' :: ds ++ e, r3)
    | _ =>
      let (e, r3) := parseExp r1
      some (sign ++ intPart ++ e, r3)

mutual

/-- One JSON value; `fuel` bounds recursion depth. -/
def parseValue : Nat → List Char → Option (Json × List Char)
  | 0, _ => none
  | f + 1, l =>
    match skipJWs l with
    | 'n' :: 'u' :: 'l' :: 'l' :: r => some (.jnull, r)
    | 't' :: 'r' :: 'u' :: 'e' :: r => some (.jbool true, r)
    | 'f' :: 'a' :: 'l' :: 's' :: 'e' :: r => some (.jbool false, r)
    | '"' :: r => (parseStrAux r).map (fun p => (.jstr p.1, p.2))
    | '[' :: r => (parseItems f (skipJWs r)).map (fun p => (.jarr p.1, p.2))
    | '\x7b' :: r => (parseMembers f (skipJWs r)).map (fun p => (.jobj p.1, p.2))
    | rest => (parseNumber rest).map (fun p => (.jnum p.1, p.2))

/-- Array items after `[` (leading whitespace already skipped). -/
def parseItems : Nat → List Char → Option (List Json × List Char)
  | 0, _ => none
  | f + 1, l =>
    match l with
    | ']' :: r => some ([], r)
    | _ =>
      match parseValue f l with
      | none => none
      | some (v, r1) =>
        match skipJWs r1 with
        | ',' :: r2 =>
          match skipJWs r2 with
          | ']' :: _ => none
          | l2 =>
            match parseMoreItems f l2 with
            | none => none
            | some (vs, r3) => some (v :: vs, r3)
        | ']' :: r2 => some ([v], r2)
        | _ => none

/-- Items after a comma: at least one value is required (no trailing comma). -/
def parseMoreItems : Nat → List Char → Option (List Json × List Char)
  | 0, _ => none
  | f + 1, l =>
    match parseValue f l with
    | none => none
    | some (v, r1) =>
      match skipJWs r1 with
      | ',' :: r2 =>
        match skipJWs r2 with
        | ']' :: _ => none
        | l2 =>
          match parseMoreItems f l2 with
          | none => none
          | some (vs, r3) => some (v :: vs, r3)
      | ']' :: r2 => some ([v], r2)
      | _ => none

/-- Object members after the opening brace (leading whitespace skipped). -/
def parseMembers : Nat → List Char → Option (List (List Char × Json) × List Char)
  | 0, _ => none
  | f + 1, l =>
    match l with
    | '\x7d' :: r => some ([], r)
    | '"' :: r =>
      match parseStrAux r with
      | none => none
      | some (key, r1) =>
        match skipJWs r1 with
        | ':' :: r2 =>
          match parseValue f r2 with
          | none => none
          | some (v, r3) =>
            match skipJWs r3 with
            | ',' :: r4 =>
              match parseMoreMembers f (skipJWs r4) with
              | none => none
              | some (ms, r5) => some ((key, v) :: ms, r5)
            | '\x7d' :: r4 => some ([(key, v)], r4)
            | _ => none
        | _ => none
    | _ => none

/-- Members after a comma: at least one member required. -/
def parseMoreMembers : Nat → List Char → Option (List (List Char × Json) × List Char)
  | 0, _ => none
  | f + 1, l =>
    match l with
    | '"' :: r =>
      match parseStrAux r with
      | none => none
      | some (key, r1) =>
        match skipJWs r1 with
        | ':' :: r2 =>
          match parseValue f r2 with
          | none => none
          | some (v, r3) =>
            match skipJWs r3 with
            | ',' :: r4 =>
              match parseMoreMembers f (skipJWs r4) with
              | none => none
              | some (ms, r5) => some ((key, v) :: ms, r5)
            | '\x7d' :: r4 => some ([(key, v)], r4)
            | _ => none
        | _ => none
    | _ => none

end

/-- Model of `JSON.parse` on a whole document: the parsed value with nothing but
whitespace left over; `none` when `JSON.parse` would throw. -/
def jsonParse (l : List Char) : Option Json :=
  match parseValue (2 * l.length + 2) l with
  | some (j, rest) => if skipJWs rest = [] then some j else none
  | none => none

/-- JS property access `obj.key` (undefined on non-objects / missing key;
with duplicate keys the last occurrence wins, as in `JSON.parse`). -/
def jsonGet (j : Json) (key : List Char) : Option Json :=
  match j with
  | .jobj fields => (fields.reverse.find? (fun kv => kv.1 = key)).map Prod.snd
  | _ => none

/-- JS index access `arr[i]` (undefined on non-arrays). -/
def jsonIdx (j : Json) (i : Nat) : Option Json :=
  match j with
  | .jarr xs => xs.get? i
  | _ => none

/-- A JS-truthy string drawn from an optional JSON value: a non-empty JSON
string; `none` when the value is absent, not a string, or `""` (falsy). -/
def truthyStr : Option Json → Option (List Char)
  | some (.jstr s) => if s = [] then none else some s
  | _ => none

/-! ### The relay's SSE decode (route.ts, the `ReadableStream` transform)

The upstream body is consumed read by read; each read's bytes are appended
to a line buffer, complete lines are classified (`data: ` records carry a
JSON payload with a text delta, `[DONE]` terminates the stream), and the
extracted tokens are re-emitted.  Reads are modelled at text level
(`TextDecoder` with `stream: true` makes byte-level splits transparent). -/

/-- Token extraction for one `data:` payload (route.ts lines 163-174):
`JSON.parse`, then `choices?.[0]?.delta?.content || choices?.[0]?.text || ""`;
an empty token is not enqueued, malformed JSON is skipped.  Non-string
delta values (which never occur upstream) are treated as absent. -/
def extractToken (data : List Char) : Option String :=
  match jsonParse data with
  | none => none
  | some j =>
    let c0 := (jsonGet j "choices".data).bind (fun c => jsonIdx c 0)
    match truthyStr ((c0.bind (fun c => jsonGet c "delta".data)).bind
        (fun d => jsonGet d "content".data)) with
    | some s => some (String.mk s)
    | none =>
      match truthyStr (c0.bind (fun c => jsonGet c "text".data)) with
      | some s => some (String.mk s)
      | none => none

/-- Model of `buffer.split("\n")`: the list of newline-separated segments (never
empty; segments contain no newline). -/
def splitNl : List Char → List (List Char)
  | [] => [[]]
  | c :: cs =>
    if c = '\n' then [] :: splitNl cs
    else
      match splitNl cs with
      | [] => [[c]]
      | l :: ls => (c :: l) :: ls

/-- What the per-line loop does with one complete line. -/
inductive LineAct where
  | skip
  | fin
  | tok (t : String)

/-- Classify one line (route.ts lines 148-174): trim, require the
`data: ` tag, check for the `[DONE]` sentinel, otherwise extract a token. -/
def classifyLine (l : List Char) : LineAct :=
  let t := jsTrim l
  if t = [] then .skip
  else if ¬ ("data: ".data.isPrefixOf t) then .skip
  else
    let d := t.drop 6
    if d = "[DONE]".data then .fin
    else
      match extractToken d with
      | some s => .tok s
      | none => .skip

/-- The `for (const line of lines)` loop of one `pull`: emits tokens in
order and stops at the first `[DONE]` (the code `return`s there), flagging
that the stream is finished. -/
def procLines : List (List Char) → Bool × List String
  | [] => (false, [])
  | l :: ls =>
    match classifyLine l with
    | .fin => (true, [])
    | .tok s =>
      let r := procLines ls
      (r.1, s :: r.2)
    | .skip => procLines ls

/-- Model of `processBuffer` (route.ts lines 207-228): the final flush processes
every line of the remaining buffer, skipping `[DONE]`. -/
def processBufferLines : List (List Char) → List String
  | [] => []
  | l :: ls =>
    match classifyLine l with
    | .tok s => s :: processBufferLines ls
    | _ => processBufferLines ls

/-- The decoder's persistent state across reads: the pending partial line
and the `streamDone` flag (set when `[DONE]` was observed; the code then
cancels the upstream reader and closes its output). -/
structure RelayState where
  buffer : List Char
  streamDone : Bool
deriving DecidableEq

/-- One `pull` handling one upstream read (route.ts lines 123-175): if the
stream is already done nothing is decoded; otherwise the read is appended
to the buffer, the last (possibly partial) segment is kept as the new
buffer, and the complete lines are processed. -/
def stepChunk (s : RelayState) (chunk : List Char) : RelayState × List String :=
  if s.streamDone then (s, [])
  else
    let parts := splitNl (s.buffer ++ chunk)
    let r := procLines parts.dropLast
    (⟨parts.getLastD [], r.1⟩, r.2)

/-- All reads of an upstream body, in order. -/
def runChunks : RelayState → List (List Char) → RelayState × List String
  | s, [] => (s, [])
  | s, c :: cs =>
    let p := stepChunk s c
    let q := runChunks p.1 cs
    (q.1, p.2 ++ q.2)

/-- The `done` branch of `pull` (route.ts lines 132-139): when the
transport closes without a sentinel, a non-whitespace remainder of the
buffer is flushed through `processBuffer`.  After `[DONE]` the reader was
cancelled, so no flush happens. -/
def flushBuffer (s : RelayState) : List String :=
  if s.streamDone then []
  else if jsTrim s.buffer = [] then []
  else processBufferLines (splitNl s.buffer)

/-- The token sequence the relay emits for a given partition of the
upstream body into reads, including the final flush at transport close. -/
def relayDecode (chunks : List (List Char)) : List String :=
  let r := runChunks ⟨[], false⟩ chunks
  r.2 ++ flushBuffer r.1

/-- Aggregated text of a decoded token sequence (what the client
accumulates into `fullContent`). -/
def aggregated (toks : List String) : String :=
  String.join toks

/-! ### The relay's request handling (route.ts `POST`)

The pre-stream phases: request parsing (a parse failure lands in the outer
`catch`), the missing-URL check, the 55 s upstream fetch deadline, the
fetch `catch`, and the response classification before streaming begins. -/

def relayTimeoutMs : Nat := 55000

structure RelayReq where
  apiUrl : String
  apiKey : String
deriving DecidableEq

/-- The upstream `fetch` `Response` as the relay observes it. -/
structure UpstreamResp where
  status : Nat
  contentType : String
  body : Option (List (List Char))
deriving DecidableEq

/-- JS `Response.ok`: status in 200..299. -/
def respOk (r : UpstreamResp) : Bool :=
  200 ≤ r.status && r.status ≤ 299

/-- Model of `await response.text()`: the whole body as text (empty for a null body). -/
def bodyTextOf (r : UpstreamResp) : List Char :=
  match r.body with
  | none => []
  | some cs => cs.flatten

/-- How the upstream `fetch` settles when the 55 s abort does not fire
first: with a response, or rejected by a network-level failure
(DNS, refused, generic fetch failure) carrying an error message. -/
inductive FetchOut where
  | success (r : UpstreamResp)
  | failure (msg : String)

/-- What the relay returns to the client: an `{error}` JSON document with
a status, or a 200 chunked text stream of decoded tokens. -/
inductive RelayOutcome where
  | errorDoc (status : Nat) (errMsg : String)
  | streamBody (toks : List String)
deriving DecidableEq

def statusOf : RelayOutcome → Nat
  | .errorDoc st _ => st
  | .streamBody _ => 200

/-- Base-URL normalization (route.ts lines 19-22): strip trailing slashes,
append `/v1` unless already present. -/
def normalizeBaseUrl (u : String) : String :=
  let b := String.mk ((u.data.reverse.dropWhile (fun c => c = '/')).reverse)
  if "/v1".data.isSuffixOf b.data then b else b ++ "/v1"

/-- The `POST` handler (route.ts lines 3-205).  `req` is the parsed
request body (`Except.error` when `req.json()` throws, which the outer
`catch` turns into a 503); `headerDelay` is the time until the upstream
fetch settles, checked against the 55 s abort timer; `fetched` is how it
settles. -/
def relayPOST (req : Except String RelayReq) (headerDelay : Nat)
    (fetched : FetchOut) : RelayOutcome :=
  match req with
  | .error m =>
    .errorDoc 503 ("Cannot reach the model server: " ++ m ++
      ". Make sure your Kaggle notebook is running.")
  | .ok r =>
    if r.apiUrl = "" then
      .errorDoc 400 "API URL not configured. Open Settings to set your ngrok URL and API Key."
    else if headerDelay > relayTimeoutMs then
      .errorDoc 504 "Model server timed out (55 s). Make sure your Kaggle notebook is still running."
    else
      match fetched with
      | .failure m => .errorDoc 504 ("Cannot reach the model server: " ++ m)
      | .success resp =>
        if !respOk resp then
          let errorText := bodyTextOf resp
          if containsSub "<html".data errorText || containsSub "ngrok".data errorText then
            .errorDoc 502 "Ngrok tunnel returned HTML instead of JSON. The tunnel may have expired — restart your Kaggle notebook."
          else
            let t := String.mk (errorText.take 200)
            .errorDoc resp.status
              ("API Error (" ++ toString resp.status ++ "): " ++
                (if t = "" then "Connection failed" else t))
        else if containsSub "text/html".data resp.contentType.data then
          .errorDoc 502 "Received HTML from ngrok instead of JSON. Restart your Kaggle notebook to get a fresh tunnel."
        else
          match resp.body with
          | none => .errorDoc 502 "No response body from model server."
          | some chunks => .streamBody (relayDecode chunks)

/-! ### The client's dispatch queue (page.tsx)

Transcript entries are `Option Message`: `none` models a JS array hole,
which the unguarded sparse write `updated[assistantIdx] = …` can create
(see `applyChunk`). -/

inductive Role where
  | user
  | assistant
deriving DecidableEq

structure Message where
  role : Role
  content : String
deriving DecidableEq

abbrev Transcript := List (Option Message)

/-- JS array assignment `arr[i] = v`: in-bounds writes replace; an
out-of-bounds write grows the array with holes up to index `i`. -/
def jsSet (t : Transcript) (i : Nat) (m : Message) : Transcript :=
  if i < t.length then t.set i (some m)
  else t ++ List.replicate (i - t.length) none ++ [some m]

/-- The per-chunk transcript update (page.tsx lines 179-185): an unguarded
`updated[assistantIdx] = {role: "assistant", content: fullContent}`. -/
def applyChunk (t : Transcript) (assistantIdx : Nat) (fullContent : String) : Transcript :=
  jsSet t assistantIdx ⟨.assistant, fullContent⟩

/-- The catch-block transcript update (page.tsx lines 203-211): the write
is guarded by `assistantIdx < updated.length`. -/
def applyError (t : Transcript) (assistantIdx : Nat) (errMsg : String) : Transcript :=
  if assistantIdx < t.length then
    t.set assistantIdx (some ⟨.assistant, "⚠️ **Error:** " ++ errMsg⟩)
  else t

def stallTimeoutMs : Nat := 30000
def clientTimeoutMs : Nat := 60000

def clientTimeoutErrMsg : String :=
  "Request timed out (60 s). The model server may be overloaded — try again."

def emptyResponseMsg : String :=
  "Received an empty response from the model. Check if your Kaggle notebook is still running."

/-- One read of the relay's response stream: the decoded text and the time
waited since the previous read resumed (against the rolling 30 s chunk
timer armed by `resetChunkTimer`). -/
structure ReadEvent where
  text : String
  gap : Nat
deriving DecidableEq

/-- The client read loop (page.tsx lines 168-189): before each read the
chunk timer is armed at 30 s; a read that would take longer is cancelled
by the timer (`reader.cancel()` makes the pending read resolve done);
otherwise the chunk is appended to `fullContent` and written into the
placeholder, and the timer is reset.  List end is transport close. -/
def streamSteps (t : Transcript) (idx : Nat) (acc : String) :
    List ReadEvent → Transcript × String
  | [] => (t, acc)
  | e :: rest =>
    if e.gap > stallTimeoutMs then (t, acc)
    else
      let acc2 := acc ++ e.text
      streamSteps (applyChunk t idx acc2) idx acc2 rest

/-- Value of `fullContent` at the end of the read loop. -/
def streamAccum (acc : String) : List ReadEvent → String
  | [] => acc
  | e :: rest =>
    if e.gap > stallTimeoutMs then acc else streamAccum (acc ++ e.text) rest

def fullOf (events : List ReadEvent) : String := streamAccum "" events

/-- How the client's `fetch("/api/chat")` settles once resolved. -/
inductive FetchResult where
  | ok (events : List ReadEvent)
  | okNoBody
  | httpError (status : Nat) (errField : Option String)
  | netError (msg : String)

/-- One exchange's network behaviour: the delay until `fetch` settles
(checked against the 60 s abort timer, which is cleared as soon as the
fetch resolves) and how it settles. -/
structure FetchBehavior where
  headerDelay : Nat
  result : FetchResult

/-- One iteration of the `processQueue` while-loop after the head item is
shifted (page.tsx lines 111-212): append the empty assistant placeholder,
run the exchange, convert every terminal failure into error-marked
placeholder content via the catch block. -/
def runExchange (msgs : Transcript) (beh : FetchBehavior) : Transcript :=
  let withAssistant := msgs ++ [some ⟨.assistant, ""⟩]
  let idx := withAssistant.length - 1
  if beh.headerDelay > clientTimeoutMs then
    applyError withAssistant idx clientTimeoutErrMsg
  else
    match beh.result with
    | .netError m => applyError withAssistant idx m
    | .httpError status errField =>
      let base := "Server error (" ++ toString status ++ ")"
      let m :=
        match errField with
        | some e => if e = "" then base else e
        | none => base
      applyError withAssistant idx m
    | .okNoBody => applyError withAssistant idx "No response stream available"
    | .ok events =>
      let r := streamSteps withAssistant idx "" events
      if jsTrimStr r.2 = "" then applyError r.1 idx emptyResponseMsg
      else r.1

/-- The full while-loop: one exchange per queued item, in order; the
`k`-th attempt's network behaviour is `oracle k`. -/
def processItems (oracle : Nat → FetchBehavior) : Nat → Transcript → List String → Transcript
  | _, msgs, [] => msgs
  | k, msgs, _ :: rest => processItems oracle (k + 1) (runExchange msgs (oracle k)) rest

/-- The client's mutable session state (the `useRef` mirrors plus the
settings-modal flag). -/
structure ClientState where
  messages : Transcript
  input : String
  queue : List String
  processing : Bool
  isLoading : Bool
  showSettings : Bool
  apiUrl : String
  apiKey : String
deriving DecidableEq

/-- Model of `processQueue` (page.tsx lines 102-230): the re-entrancy guard, the
draining while-loop, and the `finally` that always clears the busy flag. -/
def processQueue (s : ClientState) (oracle : Nat → FetchBehavior) : ClientState :=
  if s.processing then s
  else
    { s with
      messages := processItems oracle 0 s.messages s.queue
      queue := []
      processing := false
      isLoading := false }

/-- Model of `clearChat` (page.tsx lines 94-100). -/
def clearChat (s : ClientState) : ClientState :=
  { s with queue := [], processing := false, messages := [], isLoading := false }

/-- JS `text || input` (an absent or empty `text` argument falls back to
the input field). -/
def jsOrInput (text : Option String) (input : String) : String :=
  match text with
  | some t => if t = "" then input else t
  | none => input

/-- Model of `sendMessage` (page.tsx lines 232-255).  The returned flag records
whether `processQueue()` was invoked. -/
def sendMessage (s : ClientState) (text : Option String) : ClientState × Bool :=
  let msgText := jsTrimStr (jsOrInput text s.input)
  if msgText = "" then (s, false)
  else if s.apiUrl = "" then ({ s with showSettings := true }, false)
  else
    ({ s with
        input := ""
        messages := s.messages ++ [some ⟨.user, msgText⟩]
        queue := s.queue ++ [msgText] },
      !s.processing)

/-! ### Derived views used in the theorems -/

/-- Whether an exchange behaviour ends in a terminal failure (every branch
of the catch block, including the empty-response throw). -/
def isFailure (beh : FetchBehavior) : Bool :=
  if beh.headerDelay > clientTimeoutMs then true
  else
    match beh.result with
    | .netError _ => true
    | .httpError _ _ => true
    | .okNoBody => true
    | .ok events => jsTrimStr (fullOf events) = ""

/-- The error message the catch block writes for a failing behaviour. -/
def errMsgOf (beh : FetchBehavior) : String :=
  if beh.headerDelay > clientTimeoutMs then clientTimeoutErrMsg
  else
    match beh.result with
    | .netError m => m
    | .httpError status errField =>
      let base := "Server error (" ++ toString status ++ ")"
      (match errField with
       | some e => if e = "" then base else e
       | none => base)
    | .okNoBody => "No response stream available"
    | .ok _ => emptyResponseMsg

/-- Wall-clock duration of a whole exchange whose stream is consumed to
the end: time to the response plus all inter-chunk waits. -/
def exchangeDuration (beh : FetchBehavior) : Nat :=
  beh.headerDelay +
    (match beh.result with
     | .ok events => (events.map (fun e => e.gap)).sum
     | _ => 0)

/-! ### Supporting lemmas about the client model -/

theorem jsSet_length_of_lt {t : Transcript} {i : Nat} (m : Message) (h : i < t.length) :
    (jsSet t i m).length = t.length := by
  unfold jsSet
  rw [if_pos h]
  simp

theorem applyError_length (t : Transcript) (i : Nat) (m : String) :
    (applyError t i m).length = t.length := by
  unfold applyError
  split <;> simp

theorem applyError_getElem (t : Transcript) (i : Nat) (m : String) (h : i < t.length) :
    (applyError t i m)[i]? = some (some ⟨.assistant, "⚠️ **Error:** " ++ m⟩) := by
  unfold applyError
  rw [if_pos h]
  exact List.getElem?_set_eq_of_lt _ h

theorem streamSteps_length {t : Transcript} {i : Nat} {acc : String}
    {evs : List ReadEvent} (h : i < t.length) :
    ((streamSteps t i acc evs).1).length = t.length := by
  induction evs generalizing t acc with
  | nil => rfl
  | cons e rest ih =>
    unfold streamSteps
    split
    · rfl
    · have hlen : (applyChunk t i (acc ++ e.text)).length = t.length :=
        jsSet_length_of_lt _ h
      rw [ih (t := applyChunk t i (acc ++ e.text)) (hlen ▸ h)]
      exact hlen

theorem streamSteps_acc (t : Transcript) (i : Nat) (acc : String) (evs : List ReadEvent) :
    (streamSteps t i acc evs).2 = streamAccum acc evs := by
  induction evs generalizing t acc with
  | nil => rfl
  | cons e rest ih =>
    unfold streamSteps streamAccum
    split
    · rfl
    · exact ih _ _

/-- The `.ok` branch of `runExchange` under an in-time response. -/
theorem runExchange_ok (msgs : Transcript) (hd : Nat) (events : List ReadEvent)
    (hhd : hd ≤ clientTimeoutMs) :
    runExchange msgs ⟨hd, .ok events⟩ =
      (if jsTrimStr (fullOf events) = "" then
        applyError (streamSteps (msgs ++ [some ⟨.assistant, ""⟩]) msgs.length "" events).1
          msgs.length emptyResponseMsg
      else (streamSteps (msgs ++ [some ⟨.assistant, ""⟩]) msgs.length "" events).1) := by
  have h1 : ¬ (FetchBehavior.mk hd (.ok events)).headerDelay > clientTimeoutMs := by
    simp only []
    omega
  have hlen : (msgs ++ [some (⟨Role.assistant, ""⟩ : Message)]).length - 1 = msgs.length := by
    simp
  simp only [runExchange, if_neg h1, hlen, streamSteps_acc]
  rfl

/-! ## Claim C9 -/

/-- C9: an exchange that terminates transport-successfully with zero text
(aggregated content trims to empty) ends with the `EmptyResponse` failure
message written into the assistant placeholder, never a silent success
leaving an empty assistant turn. -/
theorem empty_stream_is_failure (msgs : Transcript) (events : List ReadEvent) (hd : Nat)
    (hhd : hd ≤ clientTimeoutMs) (hempty : jsTrimStr (fullOf events) = "") :
    (runExchange msgs ⟨hd, .ok events⟩)[msgs.length]? =
      some (some ⟨.assistant, "⚠️ **Error:** " ++ emptyResponseMsg⟩) := by
  rw [runExchange_ok msgs hd events hhd, if_pos hempty]
  have hidx : msgs.length < (msgs ++ [some (⟨Role.assistant, ""⟩ : Message)]).length := by
    simp
  exact applyError_getElem _ _ _ (by rw [streamSteps_length hidx]; exact hidx)

/-- Witness for C9 at a concrete whitespace-only stream. -/
theorem empty_stream_is_failure_wit :
    (runExchange ([] : Transcript) ⟨100, .ok [⟨" ", 0⟩]⟩)[(0 : Nat)]? =
      some (some ⟨.assistant, "⚠️ **Error:** " ++ emptyResponseMsg⟩) :=
  empty_stream_is_failure [] [⟨" ", 0⟩] 100 (by decide) (by decide)

/-! ## Claim C10 -/

/-- C10: submitting a message whose text is empty or whitespace-only is a
complete no-op — no user turn, no queue push, no processing trigger, and
no settings prompt (the blank check runs before the configured-URL check);
conversely a non-blank submit with no URL configured only surfaces the
settings prompt. -/
theorem blank_submit_noop :
    (∀ (s : ClientState) (text : Option String),
        jsTrimStr (jsOrInput text s.input) = "" →
        sendMessage s text = (s, false)) ∧
    (∀ (s : ClientState) (text : Option String),
        jsTrimStr (jsOrInput text s.input) ≠ "" → s.apiUrl = "" →
        sendMessage s text = ({ s with showSettings := true }, false)) := by
  constructor
  · intro s text h
    simp [sendMessage, h]
  · intro s text h hurl
    simp [sendMessage, h, hurl]

/-- Witness for C10: a whitespace-only submit with no URL configured
changes nothing (in particular no settings prompt), while a real submit in
the same unconfigured state does surface the prompt. -/
theorem blank_submit_noop_wit :
    sendMessage ⟨[], "   ", [], false, false, false, "", ""⟩ none =
      (⟨[], "   ", [], false, false, false, "", ""⟩, false) ∧
    sendMessage ⟨[], "hi", [], false, false, false, "", ""⟩ none =
      (⟨[], "hi", [], false, false, true, "", ""⟩, false) :=
  ⟨blank_submit_noop.1 _ none (by decide), blank_submit_noop.2 _ none (by decide) rfl⟩

/-! ## Claim C1 -/

/-- C1: each iteration of the dispatch loop removes exactly one item from
the head of the pending queue and attempts its exchange; a terminal
failure of any kind is converted into error-marked placeholder content
rather than propagating (the transcript still grows by exactly one
assistant turn, holding the error text); and the busy flag is cleared and
the queue fully drained on every run of `processQueue`. -/
theorem dispatch_loop_progress_and_cleanup :
    (∀ (oracle : Nat → FetchBehavior) (k : Nat) (msgs : Transcript)
        (x : String) (rest : List String),
        processItems oracle k msgs (x :: rest) =
          processItems oracle (k + 1) (runExchange msgs (oracle k)) rest) ∧
    (∀ (s : ClientState) (oracle : Nat → FetchBehavior),
        s.processing = false →
        (processQueue s oracle).processing = false ∧
          (processQueue s oracle).queue = []) ∧
    (∀ (msgs : Transcript) (beh : FetchBehavior),
        isFailure beh = true →
        (runExchange msgs beh).length = msgs.length + 1 ∧
          (runExchange msgs beh)[msgs.length]? =
            some (some ⟨.assistant, "⚠️ **Error:** " ++ errMsgOf beh⟩)) := by
  refine ⟨fun _ _ _ _ _ => rfl, fun s oracle h => ?_, fun msgs beh hfail => ?_⟩
  · unfold processQueue
    rw [if_neg (by simp [h])]
    exact ⟨rfl, rfl⟩
  · obtain ⟨hd, res⟩ := beh
    have hidx : msgs.length < (msgs ++ [some (⟨Role.assistant, ""⟩ : Message)]).length := by
      simp
    have hlen1 : (msgs ++ [some (⟨Role.assistant, ""⟩ : Message)]).length = msgs.length + 1 := by
      simp
    by_cases hhd : hd > clientTimeoutMs
    · have hrun : runExchange msgs ⟨hd, res⟩ =
          applyError (msgs ++ [some ⟨.assistant, ""⟩]) msgs.length clientTimeoutErrMsg := by
        simp only [runExchange, if_pos (show (FetchBehavior.mk hd res).headerDelay >
          clientTimeoutMs from hhd)]
        simp
      have hmsg : errMsgOf ⟨hd, res⟩ = clientTimeoutErrMsg := by
        simp only [errMsgOf, if_pos (show (FetchBehavior.mk hd res).headerDelay >
          clientTimeoutMs from hhd)]
      rw [hrun, hmsg]
      exact ⟨by rw [applyError_length, hlen1],
        applyError_getElem _ _ _ hidx⟩
    · have hhd2 : hd ≤ clientTimeoutMs := by omega
      cases res with
      | ok events =>
        have hempty : jsTrimStr (fullOf events) = "" := by
          have := hfail
          simp only [isFailure, if_neg (show ¬ (FetchBehavior.mk hd (.ok events)).headerDelay >
            clientTimeoutMs from hhd)] at this
          exact eq_of_beq this
        have hmsg : errMsgOf ⟨hd, .ok events⟩ = emptyResponseMsg := by
          simp only [errMsgOf, if_neg (show ¬ (FetchBehavior.mk hd (.ok events)).headerDelay >
            clientTimeoutMs from hhd)]
        rw [runExchange_ok msgs hd events hhd2, if_pos hempty, hmsg]
        have hsl : ((streamSteps (msgs ++ [some ⟨.assistant, ""⟩]) msgs.length "" events).1).length
            = msgs.length + 1 := by rw [streamSteps_length hidx, hlen1]
        exact ⟨by rw [applyError_length, hsl],
          applyError_getElem _ _ _ (by rw [hsl]; omega)⟩
      | okNoBody =>
        have hrun : runExchange msgs ⟨hd, .okNoBody⟩ =
            applyError (msgs ++ [some ⟨.assistant, ""⟩]) msgs.length
              "No response stream available" := by
          simp only [runExchange, if_neg (show ¬ (FetchBehavior.mk hd .okNoBody).headerDelay >
            clientTimeoutMs from hhd)]
          simp
        have hmsg : errMsgOf ⟨hd, .okNoBody⟩ = "No response stream available" := by
          simp only [errMsgOf, if_neg (show ¬ (FetchBehavior.mk hd .okNoBody).headerDelay >
            clientTimeoutMs from hhd)]
        rw [hrun, hmsg]
        exact ⟨by rw [applyError_length, hlen1], applyError_getElem _ _ _ hidx⟩
      | httpError status errField =>
        have hrun : runExchange msgs ⟨hd, .httpError status errField⟩ =
            applyError (msgs ++ [some ⟨.assistant, ""⟩]) msgs.length
              (errMsgOf ⟨hd, .httpError status errField⟩) := by
          simp only [runExchange, errMsgOf,
            if_neg (show ¬ (FetchBehavior.mk hd (.httpError status errField)).headerDelay >
              clientTimeoutMs from hhd)]
          simp
        rw [hrun]
        exact ⟨by rw [applyError_length, hlen1], applyError_getElem _ _ _ hidx⟩
      | netError m =>
        have hrun : runExchange msgs ⟨hd, .netError m⟩ =
            applyError (msgs ++ [some ⟨.assistant, ""⟩]) msgs.length m := by
          simp only [runExchange, if_neg (show ¬ (FetchBehavior.mk hd (.netError m)).headerDelay >
            clientTimeoutMs from hhd)]
          simp
        have hmsg : errMsgOf ⟨hd, .netError m⟩ = m := by
          simp only [errMsgOf, if_neg (show ¬ (FetchBehavior.mk hd (.netError m)).headerDelay >
            clientTimeoutMs from hhd)]
        rw [hrun, hmsg]
        exact ⟨by rw [applyError_length, hlen1], applyError_getElem _ _ _ hidx⟩

/-- Witness for C1 at a concrete state and a failing exchange. -/
theorem dispatch_loop_progress_and_cleanup_wit :
    ((processQueue ⟨[], "", ["q1", "q2"], false, false, false, "u", "k"⟩
        (fun _ => ⟨0, .netError "boom"⟩)).processing = false ∧
      (processQueue ⟨[], "", ["q1", "q2"], false, false, false, "u", "k"⟩
        (fun _ => ⟨0, .netError "boom"⟩)).queue = []) ∧
    ((runExchange ([] : Transcript) ⟨0, .netError "boom"⟩).length =
        ([] : Transcript).length + 1 ∧
      (runExchange ([] : Transcript) ⟨0, .netError "boom"⟩)[([] : Transcript).length]? =
        some (some ⟨.assistant, "⚠️ **Error:** " ++ errMsgOf ⟨0, .netError "boom"⟩⟩)) :=
  ⟨dispatch_loop_progress_and_cleanup.2.1 _ _ rfl,
    dispatch_loop_progress_and_cleanup.2.2 [] ⟨0, .netError "boom"⟩ (by decide)⟩

/-! ## Claim C2 -/

/-- A session mid-exchange: one user turn plus the streaming placeholder
at index 1, busy flag set. -/
def inFlightState : ClientState :=
  ⟨[some ⟨.user, "hi"⟩, some ⟨.assistant, ""⟩], "", [], true, true, false,
    "https://x.ngrok-free.app", "key"⟩

/-- C2 (code evaluation at the failing input): `clearChat` empties the
transcript, and the guarded terminal-frame write (`applyError`, which
checks `assistantIdx < updated.length`) indeed leaves it empty — but a
stale chunk frame goes through the unguarded sparse write
`updated[assistantIdx] = …` (`applyChunk`) and re-grows the cleared
transcript to length 2 (a hole plus the resurrected assistant turn),
so the post-clear transcript length does not remain 0. -/
theorem clear_then_stale_chunk_mutates :
    (clearChat inFlightState).messages = [] ∧
    applyError (clearChat inFlightState).messages 1 "some terminal error" = [] ∧
    applyChunk (clearChat inFlightState).messages 1 "Hello" =
      [none, some ⟨.assistant, "Hello"⟩] ∧
    (applyChunk (clearChat inFlightState).messages 1 "Hello").length = 2 := by
  decide

/-! ## Claim C3 -/

/-- C3 counterexample: a stream delivering `"Hello"` and then stalling
(31 s > the 30 s window, so the chunk timer cancels the reader) ends the
exchange as a plain success whose placeholder holds `"Hello"` — no
`Stalled` error distinct from success is yielded, contrary to the claim. -/
theorem stall_yields_no_distinct_error_cex :
    (31000 > stallTimeoutMs) ∧
    runExchange ([] : Transcript) ⟨100, .ok [⟨"Hello", 0⟩, ⟨" world", 31000⟩]⟩ =
      [some ⟨.assistant, "Hello"⟩] := by
  decide

/-- C3 amended: the rolling 30 s chunk timer gives every received chunk a
fresh full window; a read exceeding the window cancels the reader and ends
accumulation at the content received so far; the exchange then takes the
ordinary end-of-stream outcome — the `EmptyResponse` error if the
accumulated text trims to empty, otherwise success with the partial
content — with no distinct `Stalled` outcome in the error taxonomy. -/
theorem stall_cancels_without_distinct_error :
    (∀ (t : Transcript) (i : Nat) (acc : String) (e : ReadEvent) (rest : List ReadEvent),
        e.gap ≤ stallTimeoutMs →
        streamSteps t i acc (e :: rest) =
          streamSteps (applyChunk t i (acc ++ e.text)) i (acc ++ e.text) rest) ∧
    (∀ (t : Transcript) (i : Nat) (acc : String) (e : ReadEvent) (rest : List ReadEvent),
        e.gap > stallTimeoutMs → streamSteps t i acc (e :: rest) = (t, acc)) ∧
    (∀ (msgs : Transcript) (hd : Nat) (events : List ReadEvent),
        hd ≤ clientTimeoutMs →
        runExchange msgs ⟨hd, .ok events⟩ =
          (if jsTrimStr (fullOf events) = "" then
            applyError (streamSteps (msgs ++ [some ⟨.assistant, ""⟩]) msgs.length "" events).1
              msgs.length emptyResponseMsg
          else (streamSteps (msgs ++ [some ⟨.assistant, ""⟩]) msgs.length "" events).1)) := by
  refine ⟨fun t i acc e rest h => ?_, fun t i acc e rest h => ?_,
    fun msgs hd events hhd => runExchange_ok msgs hd events hhd⟩
  · conv_lhs => rw [streamSteps]
    rw [if_neg (by omega)]
  · conv_lhs => rw [streamSteps]
    rw [if_pos h]

/-- Witness for C3's amended statement at concrete inputs. -/
theorem stall_cancels_without_distinct_error_wit :
    streamSteps ([] : Transcript) 0 "" [⟨"a", 5⟩] =
      streamSteps (applyChunk [] 0 ("" ++ "a")) 0 ("" ++ "a") [] ∧
    streamSteps ([] : Transcript) 0 "x" [⟨"b", 31000⟩] = ([], "x") ∧
    runExchange ([] : Transcript) ⟨100, .ok [⟨"Hi", 0⟩]⟩ =
      (if jsTrimStr (fullOf [⟨"Hi", 0⟩]) = "" then
        applyError (streamSteps ([] ++ [some ⟨.assistant, ""⟩]) 0 "" [⟨"Hi", 0⟩]).1 0
          emptyResponseMsg
      else (streamSteps ([] ++ [some ⟨.assistant, ""⟩]) 0 "" [⟨"Hi", 0⟩]).1) :=
  ⟨stall_cancels_without_distinct_error.1 [] 0 "" ⟨"a", 5⟩ [] (by decide),
    stall_cancels_without_distinct_error.2.1 [] 0 "x" ⟨"b", 31000⟩ [] (by decide),
    stall_cancels_without_distinct_error.2.2 [] 100 [⟨"Hi", 0⟩] (by decide)⟩

/-! ## Claim C4 -/

/-- C4 counterexample: both deadline timers are cleared the moment the
fetch resolves, so an exchange whose response arrives quickly but whose
stream then takes 88 s in total (longer than both the 60 s client ceiling
and the 55 s relay ceiling, each chunk inside the 30 s stall window) is
never cancelled and completes as a success — the deadline does not bound
the whole exchange. -/
theorem overall_deadline_cex :
    exchangeDuration ⟨1000, .ok [⟨"Hello", 0⟩, ⟨" wor", 29000⟩, ⟨"ld", 29000⟩, ⟨"!", 29000⟩]⟩
        = 88000 ∧
    88000 > clientTimeoutMs ∧ 88000 > relayTimeoutMs ∧
    runExchange ([] : Transcript)
        ⟨1000, .ok [⟨"Hello", 0⟩, ⟨" wor", 29000⟩, ⟨"ld", 29000⟩, ⟨"!", 29000⟩]⟩ =
      [some ⟨.assistant, "Hello world!"⟩] := by
  decide

/-- C4 amended: the fixed deadlines (60 s client-side, 55 s relay-side)
bound only the phase up to the response's arrival — a fetch that has not
settled within the ceiling is aborted and yields the `Timeout` error —
while after the response arrives the timers are cleared and the streaming
phase is bounded only by the per-chunk stall timer. -/
theorem deadline_bounds_response_arrival :
    (∀ (msgs : Transcript) (beh : FetchBehavior),
        beh.headerDelay > clientTimeoutMs →
        (runExchange msgs beh)[msgs.length]? =
          some (some ⟨.assistant, "⚠️ **Error:** " ++ clientTimeoutErrMsg⟩)) ∧
    (∀ (r : RelayReq) (hd : Nat) (f : FetchOut),
        r.apiUrl ≠ "" → hd > relayTimeoutMs →
        relayPOST (.ok r) hd f =
          .errorDoc 504
            "Model server timed out (55 s). Make sure your Kaggle notebook is still running.") := by
  constructor
  · intro msgs beh h
    have hrun : runExchange msgs beh =
        applyError (msgs ++ [some ⟨.assistant, ""⟩]) msgs.length clientTimeoutErrMsg := by
      simp only [runExchange, if_pos h]
      simp
    rw [hrun]
    exact applyError_getElem _ _ _ (by simp)
  · intro r hd f hurl hhd
    simp only [relayPOST, if_neg hurl, if_pos hhd]

/-- Witness for C4's amended statement at concrete inputs. -/
theorem deadline_bounds_response_arrival_wit :
    (runExchange ([] : Transcript) ⟨60001, .ok [⟨"late", 0⟩]⟩)[([] : Transcript).length]? =
      some (some ⟨.assistant, "⚠️ **Error:** " ++ clientTimeoutErrMsg⟩) ∧
    relayPOST (.ok ⟨"https://x.ngrok-free.app", "k"⟩) 55001 (.failure "never") =
      .errorDoc 504
        "Model server timed out (55 s). Make sure your Kaggle notebook is still running." :=
  ⟨deadline_bounds_response_arrival.1 [] ⟨60001, .ok [⟨"late", 0⟩]⟩ (by decide),
    deadline_bounds_response_arrival.2 ⟨"https://x.ngrok-free.app", "k"⟩ 55001
      (.failure "never") (by decide) (by decide)⟩

/-! ## Claim C5 -/

/-- C5 counterexample: a network-level failure to establish the upstream
connection is reported with HTTP status 504 — the same status as a
timeout, distinguished only by the message text — not with the claimed
distinct 503 status. -/
theorem unreachable_status_cex :
    relayPOST (.ok ⟨"https://x.ngrok-free.app", "k"⟩) 120 (.failure "fetch failed") =
      .errorDoc 504 "Cannot reach the model server: fetch failed" ∧
    statusOf (relayPOST (.ok ⟨"https://x.ngrok-free.app", "k"⟩) 120
        (.failure "fetch failed")) ≠ 503 := by
  decide

/-- C5 amended: both the 55 s timeout and a network-level connection
failure are reported from the fetch `catch` with status 504,
distinguished only by their message text; status 503 is produced by the
handler's outer `catch` for any other processing error (e.g. an unparsable
request body), not for upstream unreachability. -/
theorem relay_failure_status_partition :
    (∀ (r : RelayReq) (hd : Nat) (m : String),
        r.apiUrl ≠ "" → hd ≤ relayTimeoutMs →
        relayPOST (.ok r) hd (.failure m) =
          .errorDoc 504 ("Cannot reach the model server: " ++ m)) ∧
    (∀ (r : RelayReq) (hd : Nat) (f : FetchOut),
        r.apiUrl ≠ "" → hd > relayTimeoutMs →
        relayPOST (.ok r) hd f =
          .errorDoc 504
            "Model server timed out (55 s). Make sure your Kaggle notebook is still running.") ∧
    (∀ (m : String) (hd : Nat) (f : FetchOut),
        relayPOST (.error m) hd f =
          .errorDoc 503 ("Cannot reach the model server: " ++ m ++
            ". Make sure your Kaggle notebook is running.")) := by
  refine ⟨fun r hd m hurl hhd => ?_, fun r hd f hurl hhd => ?_, fun m hd f => rfl⟩
  · simp only [relayPOST, if_neg hurl, if_neg (by omega : ¬ hd > relayTimeoutMs)]
  · simp only [relayPOST, if_neg hurl, if_pos hhd]

/-- Witness for C5's amended statement at concrete inputs. -/
theorem relay_failure_status_partition_wit :
    relayPOST (.ok ⟨"u", "k"⟩) 10 (.failure "ECONNREFUSED") =
      .errorDoc 504 ("Cannot reach the model server: " ++ "ECONNREFUSED") ∧
    relayPOST (.ok ⟨"u", "k"⟩) 60000 (.failure "x") =
      .errorDoc 504
        "Model server timed out (55 s). Make sure your Kaggle notebook is still running." ∧
    relayPOST (.error "Unexpected token < in JSON") 0 (.failure "x") =
      .errorDoc 503 ("Cannot reach the model server: " ++ "Unexpected token < in JSON" ++
        ". Make sure your Kaggle notebook is running.") :=
  ⟨relay_failure_status_partition.1 ⟨"u", "k"⟩ 10 "ECONNREFUSED" (by decide) (by decide),
    relay_failure_status_partition.2.1 ⟨"u", "k"⟩ 60000 (.failure "x") (by decide) (by decide),
    relay_failure_status_partition.2.2 "Unexpected token < in JSON" 0 (.failure "x")⟩

/-! ## Claim C8 -/

/-- C8: pre-stream classification reports markup as gateway/tunnel expiry
with status 502, never as success or a generic API error: a non-success
status whose body carries HTML markers yields the tunnel-expired error,
and a success (HTTP 200) response whose content type is markup yields the
same class of error, detected by content type rather than status code. -/
theorem markup_classified_as_gateway :
    ∀ (r : RelayReq) (hd : Nat) (resp : UpstreamResp),
      r.apiUrl ≠ "" → hd ≤ relayTimeoutMs →
      ((respOk resp = false →
          (containsSub "<html".data (bodyTextOf resp) = true ∨
            containsSub "ngrok".data (bodyTextOf resp) = true) →
          relayPOST (.ok r) hd (.success resp) =
            .errorDoc 502
              "Ngrok tunnel returned HTML instead of JSON. The tunnel may have expired — restart your Kaggle notebook.") ∧
        (resp.status = 200 →
          containsSub "text/html".data resp.contentType.data = true →
          relayPOST (.ok r) hd (.success resp) =
            .errorDoc 502
              "Received HTML from ngrok instead of JSON. Restart your Kaggle notebook to get a fresh tunnel.")) := by
  intro r hd resp hurl hhd
  constructor
  · intro hok hmark
    have hb : (containsSub "<html".data (bodyTextOf resp) ||
        containsSub "ngrok".data (bodyTextOf resp)) = true := by
      rcases hmark with h | h <;> simp [h]
    simp only [relayPOST, if_neg hurl, if_neg (by omega : ¬ hd > relayTimeoutMs), hok,
      Bool.not_false, if_pos rfl, hb]
    simp
  · intro hstatus hct
    have hok : respOk resp = true := by
      simp [respOk, hstatus]
    simp only [relayPOST, if_neg hurl, if_neg (by omega : ¬ hd > relayTimeoutMs), hok,
      Bool.not_true, hct]
    simp [hct]

/-- Witness for C8 at two concrete upstream responses: a 502 HTML error
page and an HTTP 200 ngrok warning page served as `text/html`. -/
theorem markup_classified_as_gateway_wit :
    relayPOST (.ok ⟨"u", "k"⟩) 10
        (.success ⟨502, "text/html", some ["<html><body>tunnel expired</body></html>".data]⟩) =
      .errorDoc 502
        "Ngrok tunnel returned HTML instead of JSON. The tunnel may have expired — restart your Kaggle notebook." ∧
    relayPOST (.ok ⟨"u", "k"⟩) 10
        (.success ⟨200, "text/html; charset=utf-8", some ["<html>warning</html>".data]⟩) =
      .errorDoc 502
        "Received HTML from ngrok instead of JSON. Restart your Kaggle notebook to get a fresh tunnel." :=
  ⟨(markup_classified_as_gateway ⟨"u", "k"⟩ 10
      ⟨502, "text/html", some ["<html><body>tunnel expired</body></html>".data]⟩
      (by decide) (by decide)).1 (by decide) (Or.inl (by decide)),
    (markup_classified_as_gateway ⟨"u", "k"⟩ 10
      ⟨200, "text/html; charset=utf-8", some ["<html>warning</html>".data]⟩
      (by decide) (by decide)).2 rfl (by decide)⟩

/-! ### Supporting lemmas about the SSE line decoder -/

theorem splitNl_ne_nil (l : List Char) : splitNl l ≠ [] := by
  induction l with
  | nil => simp [splitNl]
  | cons c cs ih =>
    unfold splitNl
    split
    · simp
    · cases h : splitNl cs with
      | nil => simp
      | cons x xs => simp

/-- Prepend a partial segment to the first segment of a split. -/
def mergeFirst (x : List Char) : List (List Char) → List (List Char)
  | [] => [x]
  | y :: ys => (x ++ y) :: ys

theorem getLastD_append_cons {α : Type} (l₁ : List α) (x : α) (l₂ : List α) (d : α) :
    (l₁ ++ x :: l₂).getLastD d = l₂.getLastD x := by
  induction l₁ generalizing d with
  | nil => exact List.getLastD_cons d x l₂
  | cons y ys ih =>
    rw [List.cons_append, List.getLastD_cons]
    exact ih y

/-- Splitting a concatenation: the complete segments of `a` survive, and
`a`'s trailing partial segment is glued onto the first segment of `b`. -/
theorem splitNl_append (a b : List Char) :
    splitNl (a ++ b) =
      (splitNl a).dropLast ++ mergeFirst ((splitNl a).getLastD []) (splitNl b) := by
  induction a with
  | nil =>
    cases h : splitNl b with
    | nil => exact absurd h (splitNl_ne_nil b)
    | cons y ys => simp [splitNl, mergeFirst, h]
  | cons c a ih =>
    by_cases hc : c = '\n'
    · subst hc
      have h1 : splitNl (('\n' :: a) ++ b) = [] :: splitNl (a ++ b) := by
        simp [splitNl]
      have h2 : splitNl ('\n' :: a) = [] :: splitNl a := by
        simp [splitNl]
      rw [h1, h2, ih, List.dropLast_cons_of_ne_nil (splitNl_ne_nil a), List.getLastD_cons]
      simp
    · cases hx : splitNl a with
      | nil => exact absurd hx (splitNl_ne_nil a)
      | cons x xs =>
        have h1 : splitNl ((c :: a) ++ b) =
            (match splitNl (a ++ b) with
             | [] => [[c]]
             | z :: zs => (c :: z) :: zs) := by
          simp only [List.cons_append, splitNl, if_neg hc]
          rfl
        have h2 : splitNl (c :: a) = (c :: x) :: xs := by
          simp only [splitNl, if_neg hc, hx]
        cases xs with
        | nil =>
          cases hb : splitNl b with
          | nil => exact absurd hb (splitNl_ne_nil b)
          | cons y ys =>
            rw [h1, ih, hx, hb, h2]
            simp [mergeFirst]
        | cons w ws =>
          rw [h1, ih, hx, h2]
          simp only [List.dropLast_cons₂, List.getLastD_cons, List.cons_append]

theorem splitNl_mem_noNl (l : List Char) : ∀ x ∈ splitNl l, '\n' ∉ x := by
  induction l with
  | nil =>
    intro x hx
    simp [splitNl] at hx
    subst hx
    simp
  | cons c cs ih =>
    intro x hx
    by_cases hc : c = '\n'
    · subst hc
      simp only [splitNl, if_pos rfl] at hx
      rcases List.mem_cons.mp hx with h | h
      · subst h; simp
      · exact ih x h
    · simp only [splitNl, if_neg hc] at hx
      cases hsp : splitNl cs with
      | nil => exact absurd hsp (splitNl_ne_nil cs)
      | cons y ys =>
        rw [hsp] at hx
        rcases List.mem_cons.mp hx with h | h
        · subst h
          intro hmem
          rcases List.mem_cons.mp hmem with h2 | h2
          · exact hc h2.symm
          · exact ih y (by rw [hsp]; exact List.mem_cons_self y ys) h2
        · exact ih x (by rw [hsp]; exact List.mem_cons_of_mem y h)

theorem splitNl_getLastD_noNl (l : List Char) : '\n' ∉ (splitNl l).getLastD [] := by
  cases h : splitNl l with
  | nil => exact absurd h (splitNl_ne_nil l)
  | cons y ys =>
    have hmem : (y :: ys).getLastD [] ∈ y :: ys := by
      rw [List.getLastD_eq_getLast?, List.getLast?_eq_getLast (y :: ys) (by simp)]
      exact List.getLast_mem _
    exact splitNl_mem_noNl l _ (h ▸ hmem)

theorem splitNl_of_noNl {l : List Char} (h : '\n' ∉ l) : splitNl l = [l] := by
  induction l with
  | nil => rfl
  | cons c cs ih =>
    have hc : ¬ c = '\n' := fun he => h (he ▸ List.mem_cons_self c cs)
    have hcs : '\n' ∉ cs := fun hm => h (List.mem_cons_of_mem c hm)
    simp only [splitNl, if_neg hc, ih hcs]

theorem procLines_append_fin {A : List (List Char)} (B : List (List Char))
    (h : (procLines A).1 = true) : procLines (A ++ B) = procLines A := by
  induction A with
  | nil => simp [procLines] at h
  | cons l ls ih =>
    cases hcl : classifyLine l with
    | fin => simp only [List.cons_append, procLines, hcl]
    | tok s =>
      simp only [procLines, hcl] at h ⊢
      rw [List.append_eq, ih h]
    | skip =>
      simp only [procLines, hcl] at h ⊢
      rw [List.append_eq]
      exact ih h

theorem procLines_append_go {A : List (List Char)} (B : List (List Char))
    (h : (procLines A).1 = false) :
    procLines (A ++ B) = ((procLines B).1, (procLines A).2 ++ (procLines B).2) := by
  induction A with
  | nil => simp [procLines]
  | cons l ls ih =>
    cases hcl : classifyLine l with
    | fin => simp [procLines, hcl] at h
    | tok s =>
      simp only [procLines, hcl] at h ⊢
      rw [List.append_eq, ih h]
      simp
    | skip =>
      simp only [procLines, hcl] at h ⊢
      rw [List.append_eq]
      exact ih h

theorem stepChunk_done {s : RelayState} (h : s.streamDone = true) (c : List Char) :
    stepChunk s c = (s, []) := by
  unfold stepChunk
  rw [if_pos h]

theorem stepChunk_not_done {s : RelayState} (h : s.streamDone = false) (c : List Char) :
    stepChunk s c =
      (⟨(splitNl (s.buffer ++ c)).getLastD [],
          (procLines (splitNl (s.buffer ++ c)).dropLast).1⟩,
        (procLines (splitNl (s.buffer ++ c)).dropLast).2) := by
  unfold stepChunk
  rw [if_neg (by simp [h])]

theorem runChunks_done {s : RelayState} (h : s.streamDone = true) (cs : List (List Char)) :
    runChunks s cs = (s, []) := by
  induction cs with
  | nil => rfl
  | cons c cs ih => simp [runChunks, stepChunk_done h, ih]

theorem flushBuffer_done {s : RelayState} (h : s.streamDone = true) : flushBuffer s = [] := by
  unfold flushBuffer
  rw [if_pos h]

/-- Two decoder states are interchangeable when they agree on the done
flag, and on the buffer whenever the stream is still live (once `[DONE]`
is seen the buffer is never read again). -/
def sdEquiv (s t : RelayState) : Prop :=
  s.streamDone = t.streamDone ∧ (s.streamDone = false → s.buffer = t.buffer)

theorem sdEquiv_refl (s : RelayState) : sdEquiv s s := ⟨rfl, fun _ => rfl⟩

theorem sdEquiv_symm {s t : RelayState} (h : sdEquiv s t) : sdEquiv t s :=
  ⟨h.1.symm, fun hf => (h.2 (h.1.trans hf)).symm⟩

theorem sdEquiv_trans {s t u : RelayState} (h1 : sdEquiv s t) (h2 : sdEquiv t u) :
    sdEquiv s u :=
  ⟨h1.1.trans h2.1, fun hf => (h1.2 hf).trans (h2.2 (h1.1.symm.trans hf))⟩

theorem stepChunk_congr {s t : RelayState} (h : sdEquiv s t) (c : List Char) :
    (stepChunk s c).2 = (stepChunk t c).2 ∧
      sdEquiv (stepChunk s c).1 (stepChunk t c).1 := by
  cases hs : s.streamDone with
  | true =>
    have ht : t.streamDone = true := h.1.symm.trans hs
    rw [stepChunk_done hs, stepChunk_done ht]
    exact ⟨rfl, h⟩
  | false =>
    have ht : t.streamDone = false := h.1.symm.trans hs
    rw [stepChunk_not_done hs, stepChunk_not_done ht, h.2 hs]
    exact ⟨rfl, sdEquiv_refl _⟩

theorem runChunks_congr {s t : RelayState} (h : sdEquiv s t) (cs : List (List Char)) :
    (runChunks s cs).2 = (runChunks t cs).2 ∧
      sdEquiv (runChunks s cs).1 (runChunks t cs).1 := by
  induction cs generalizing s t with
  | nil => exact ⟨rfl, h⟩
  | cons c cs ih =>
    obtain ⟨ho, hst⟩ := stepChunk_congr h c
    obtain ⟨ho2, hst2⟩ := ih hst
    simp only [runChunks]
    exact ⟨by rw [ho, ho2], hst2⟩

theorem flushBuffer_congr {s t : RelayState} (h : sdEquiv s t) :
    flushBuffer s = flushBuffer t := by
  cases hs : s.streamDone with
  | true => rw [flushBuffer_done hs, flushBuffer_done (h.1.symm.trans hs)]
  | false =>
    have ht : t.streamDone = false := h.1.symm.trans hs
    unfold flushBuffer
    rw [h.2 hs, hs, ht]

theorem stepChunk_buffer_noNl {s : RelayState} (h : '\n' ∉ s.buffer) (c : List Char) :
    '\n' ∉ (stepChunk s c).1.buffer := by
  cases hs : s.streamDone with
  | true => rw [stepChunk_done hs]; exact h
  | false => rw [stepChunk_not_done hs]; exact splitNl_getLastD_noNl (s.buffer ++ c)

/-- Feeding one read `a ++ b` produces the same output as feeding `a` and
then `b`, and an interchangeable state: the line buffering is insensitive
to read boundaries. -/
theorem stepChunk_append (s : RelayState) (a b : List Char) :
    (stepChunk s (a ++ b)).2 =
      (stepChunk s a).2 ++ (stepChunk (stepChunk s a).1 b).2 ∧
    sdEquiv (stepChunk s (a ++ b)).1 (stepChunk (stepChunk s a).1 b).1 := by
  cases hs : s.streamDone with
  | true =>
    rw [stepChunk_done hs, stepChunk_done hs, stepChunk_done hs]
    exact ⟨rfl, sdEquiv_refl s⟩
  | false =>
    cases hb : splitNl b with
    | nil => exact absurd hb (splitNl_ne_nil b)
    | cons b0 bs =>
      have hsplit : splitNl (s.buffer ++ (a ++ b)) =
          (splitNl (s.buffer ++ a)).dropLast ++
            (((splitNl (s.buffer ++ a)).getLastD [] ++ b0) :: bs) := by
        rw [← List.append_assoc, splitNl_append (s.buffer ++ a) b, hb]
        rfl
      have hna : '\n' ∉ (splitNl (s.buffer ++ a)).getLastD [] :=
        splitNl_getLastD_noNl (s.buffer ++ a)
      have hsplit2 : splitNl ((splitNl (s.buffer ++ a)).getLastD [] ++ b) =
          ((splitNl (s.buffer ++ a)).getLastD [] ++ b0) :: bs := by
        rw [splitNl_append _ b, splitNl_of_noNl hna, hb]
        rfl
      rw [stepChunk_not_done hs (a ++ b), stepChunk_not_done hs a]
      cases hfin : (procLines (splitNl (s.buffer ++ a)).dropLast).1 with
      | true =>
        rw [stepChunk_done (s := ⟨(splitNl (s.buffer ++ a)).getLastD [], true⟩) rfl]
        constructor
        · show (procLines (splitNl (s.buffer ++ (a ++ b))).dropLast).2 = _ ++ []
          rw [hsplit, List.dropLast_append_cons, procLines_append_fin _ hfin,
            List.append_nil]
        · show sdEquiv ⟨_, (procLines (splitNl (s.buffer ++ (a ++ b))).dropLast).1⟩
            ⟨(splitNl (s.buffer ++ a)).getLastD [], true⟩
          rw [hsplit, List.dropLast_append_cons, procLines_append_fin _ hfin]
          exact ⟨by simp [hfin], fun hcon => by simp [hfin] at hcon⟩
      | false =>
        rw [stepChunk_not_done (s := ⟨(splitNl (s.buffer ++ a)).getLastD [], false⟩) rfl b]
        constructor
        · show (procLines (splitNl (s.buffer ++ (a ++ b))).dropLast).2 = _
          rw [hsplit, List.dropLast_append_cons, procLines_append_go _ hfin]
          simp only [hsplit2]
        · show sdEquiv ⟨(splitNl (s.buffer ++ (a ++ b))).getLastD [],
              (procLines (splitNl (s.buffer ++ (a ++ b))).dropLast).1⟩ _
          rw [hsplit, List.dropLast_append_cons, procLines_append_go _ hfin,
            getLastD_append_cons]
          simp only [hsplit2]
          exact ⟨rfl, fun _ => by rw [List.getLastD_cons]⟩

theorem runChunks_append (s : RelayState) (xs ys : List (List Char)) :
    runChunks s (xs ++ ys) =
      ((runChunks (runChunks s xs).1 ys).1,
        (runChunks s xs).2 ++ (runChunks (runChunks s xs).1 ys).2) := by
  induction xs generalizing s with
  | nil => simp [runChunks]
  | cons c cs ih =>
    have h1 : runChunks s (c :: (cs ++ ys)) =
        ((runChunks (stepChunk s c).1 (cs ++ ys)).1,
          (stepChunk s c).2 ++ (runChunks (stepChunk s c).1 (cs ++ ys)).2) := rfl
    have h2 : runChunks s (c :: cs) =
        ((runChunks (stepChunk s c).1 cs).1,
          (stepChunk s c).2 ++ (runChunks (stepChunk s c).1 cs).2) := rfl
    rw [List.cons_append, h1, h2, ih]
    simp [List.append_assoc]

/-- Consuming a partition of the body chunk-by-chunk matches consuming the
whole body in one read, up to an interchangeable final state. -/
theorem runChunks_flatten (s : RelayState) (cs : List (List Char)) (h : '\n' ∉ s.buffer) :
    (runChunks s cs).2 = (stepChunk s cs.flatten).2 ∧
      sdEquiv (runChunks s cs).1 (stepChunk s cs.flatten).1 := by
  induction cs generalizing s with
  | nil =>
    cases hs : s.streamDone with
    | true =>
      rw [show ([] : List (List Char)).flatten = [] from rfl, stepChunk_done hs]
      exact ⟨rfl, sdEquiv_refl s⟩
    | false =>
      rw [show ([] : List (List Char)).flatten = [] from rfl, stepChunk_not_done hs,
        List.append_nil, splitNl_of_noNl h]
      refine ⟨rfl, ?_⟩
      exact ⟨by simp [runChunks, hs, procLines], fun _ => by simp [runChunks]⟩
  | cons c cs ih =>
    have h1 := stepChunk_append s c cs.flatten
    have h2 := ih (stepChunk s c).1 (stepChunk_buffer_noNl h c)
    rw [List.flatten_cons]
    constructor
    · have : (runChunks s (c :: cs)).2 =
          (stepChunk s c).2 ++ (runChunks (stepChunk s c).1 cs).2 := by
        simp [runChunks]
      rw [this, h2.1, h1.1]
    · have : (runChunks s (c :: cs)).1 = (runChunks (stepChunk s c).1 cs).1 := by
        simp [runChunks]
      rw [this]
      exact sdEquiv_trans h2.2 (sdEquiv_symm h1.2)

/-! ## Claim C6 -/

/-- C6: the relay's line-buffering decode is boundary-independent — every
partition of the upstream byte sequence into read chunks emits the same
token sequence as a single unsplit read — and on the spec's example of
three SSE records carrying `"Hi"`, `" there"` and the sentinel, the
decoded output is exactly the tokens `"Hi"`, `" there"`, aggregating to
`"Hi there"`. -/
theorem relay_decode_boundary_free :
    (∀ chunks : List (List Char), relayDecode chunks = relayDecode [chunks.flatten]) ∧
    relayDecode
        ["data: \x7b\"choices\":[\x7b\"delta\":\x7b\"content\":\"Hi\"\x7d\x7d]\x7d\n".data,
          "data: \x7b\"choices\":[\x7b\"delta\":\x7b\"content\":\" there\"\x7d\x7d]\x7d\n".data,
          "data: [DONE]\n".data] = ["Hi", " there"] ∧
    aggregated ["Hi", " there"] = "Hi there" := by
  refine ⟨fun chunks => ?_, by decide, by decide⟩
  simp only [relayDecode]
  have h := runChunks_flatten ⟨[], false⟩ chunks (by simp)
  rw [h.1, flushBuffer_congr h.2]
  simp [runChunks]

/-- C7: once the `[DONE]` sentinel is observed the decoder is finished
(`streamDone`, upon which the code cancels the upstream reader and closes
its output): whatever bytes arrive afterwards — later reads, or later
lines inside the same read as shown by the closed second part — nothing
further is decoded or emitted, and no final flush happens. -/
theorem sentinel_stops_stream :
    (∀ (ahead later : List (List Char)),
        (runChunks ⟨[], false⟩ ahead).1.streamDone = true →
        relayDecode (ahead ++ later) = (runChunks ⟨[], false⟩ ahead).2) ∧
    relayDecode
        ["data: [DONE]\ndata: \x7b\"choices\":[\x7b\"delta\":\x7b\"content\":\"X\"\x7d\x7d]\x7d\n".data]
      = [] := by
  refine ⟨fun ahead later h => ?_, by decide⟩
  simp only [relayDecode]
  rw [runChunks_append, runChunks_done h]
  simp [flushBuffer_done h]

/-- Witness for C7: a sentinel read followed by a stale data read emits
nothing beyond the pre-sentinel output (here: nothing at all). -/
theorem sentinel_stops_stream_wit :
    relayDecode (["data: [DONE]\n".data] ++
        ["data: \x7b\"choices\":[\x7b\"delta\":\x7b\"content\":\"X\"\x7d\x7d]\x7d\n".data]) =
      [] :=
  (sentinel_stops_stream.1 ["data: [DONE]\n".data] _ (by decide)).trans (by decide)

end KaggleChat
